import Mathlib

/-!
# Verification of the WordPress HTML Content Fixer (`converterapp.py`)

Shallow embedding of the HTML-normalization pipeline of the repository
`AZBrandNorth/articleconverter` (single source file `converterapp.py`).

## Data model

The parsed HTML tree is embedded as the inductive type `Node` with the three
node kinds the pipeline manipulates (`Element`, `Text`, `Comment`, matching
the BeautifulSoup classes `Tag`, `NavigableString`, `Comment`).  A document is a
`Forest` — the list of top-level children of the parse root (the `<body>`
children when the parser produces a body, the soup children otherwise).
Element attributes are not modelled: no function of the pipeline reads or
writes attributes, and no claim mentions them.

Functions over the tree are written as mutually recursive node/list pairs
(so that they are structurally recursive and computable by the kernel);
where the source recurses on a non-subterm (a filtered child list, the
suffix after a deleted region) an explicit fuel argument bounds the
recursion depth, and the wrapper supplies fuel that strictly exceeds any
possible depth, so the fuel never runs out.

## Faithfulness notes (BeautifulSoup 4.12 semantics encoded below)

* `Comment` is a subclass of `NavigableString` in bs4, so every
  `isinstance(child, NavigableString)` test in the source is also true for
  comment nodes; in particular the `elif isinstance(child, Comment)` branch of
  `p_is_wp_comment_wrapper` and the `isinstance(node, Comment)` branch of
  `_node_has_visible_content` are dead code.  The embedding reproduces the
  executed behaviour (comments take the `NavigableString` branch).
* `Tag.get_text()` does not include comment payloads (bs4 >= 4.9 with any of
  the html builders used here).
* A bs4 `Tag` is always truthy, so the `p and p.name == "p"` guard in rule 4
  of `normalize_paragraphs` reduces to the name test for live tags.
* `decompose()` destroys a node; a decomposed or unwrapped node has empty
  `contents`.  The per-pass snapshot `list(soup.find_all("p"))` can therefore
  contain nodes that are detached by the time they are visited: such a node has
  no children, `p_is_wp_comment_wrapper` is vacuously true on it, and it is
  "re-removed", incrementing the wrapper counter without changing the tree.
  The recursive embedding of one pass accounts for those snapshot shells by
  adding one wrapper-removal per nested `<p>` unwrapped by rule 2 (exactly the
  detached nodes that occur later in the snapshot).
* Python `str.strip()` and the regex class `\s` both treat the no-break space
  U+00A0 as whitespace; `pyIsSpace` covers the whitespace characters that can
  occur in the inputs of the pipeline.  The Python `str.replace` and `str.startswith`
  are embedded directly over character lists.
-/

inductive Node where
  | elem (tag : String) (children : List Node)
  | text (s : String)
  | comment (s : String)
deriving Repr

abbrev Forest := List Node

/-- Whitespace in the sense of the Python `str.strip()` / regex `\s`
(ASCII whitespace plus the no-break space U+00A0). -/
def pyIsSpace (c : Char) : Bool :=
  c = ' ' || c = '\t' || c = '\n' || c = '\r' || c = '\x0b' || c = '\x0c' ||
  c = '\xa0'

/-- Python `s.strip()` on a list of characters. -/
def pyStripL (l : List Char) : List Char :=
  ((l.dropWhile pyIsSpace).reverse.dropWhile pyIsSpace).reverse

/-- Python `s.strip()`. -/
def pyStrip (s : String) : String :=
  ⟨pyStripL s.data⟩

/-- Python `s.strip() == ""`: the string is blank. -/
def pyBlank (s : String) : Bool :=
  s.data.all pyIsSpace

/-- Python `s.startswith(pre)`. -/
def pyStartsWith (s pre : String) : Bool :=
  pre.data.isPrefixOf s.data

/-- Python `s.replace(pat, repl)` on character lists (non-overlapping,
left to right); the fuel argument only bounds the recursion depth and is
supplied strictly greater than the list length. -/
def pyReplaceL (pat repl : List Char) : Nat → List Char → List Char
  | 0, l => l
  | _ + 1, [] => []
  | fuel + 1, c :: l =>
      if pat.isPrefixOf (c :: l) then
        repl ++ pyReplaceL pat repl fuel ((c :: l).drop pat.length)
      else c :: pyReplaceL pat repl fuel l

/-- Python `s.replace(pat, repl)`. -/
def pyReplace (s pat repl : String) : String :=
  ⟨pyReplaceL pat.data repl.data (s.data.length + 1) s.data⟩

/-- The set `BLOCK_LEVEL_TAGS` from the source. -/
def BLOCK_LEVEL_TAGS : List String :=
  ["div", "section", "article", "aside", "header", "footer", "main", "nav",
   "ul", "ol", "li", "dl", "dt", "dd",
   "table", "thead", "tbody", "tfoot", "tr", "th", "td", "caption",
   "figure", "figcaption",
   "blockquote", "pre", "hr",
   "h1", "h2", "h3", "h4", "h5", "h6"]

/-- The set `NON_EMPTY_INLINE_OK` from the source (media tags that always count as
content). -/
def NON_EMPTY_INLINE_OK : List String :=
  ["img", "svg", "iframe", "video", "audio", "canvas", "embed", "object"]

/-- The tag set used by `_node_has_visible_content` (same members as
`NON_EMPTY_INLINE_OK`, written inline in the source). -/
def VISIBLE_MEDIA_TAGS : List String :=
  ["img", "svg", "video", "audio", "canvas", "iframe", "object", "embed"]

/-- A comment payload is a Gutenberg block marker:
`str(comment).strip()` starts with `wp:` or `/wp:`. -/
def isWpMarkerPayload (s : String) : Bool :=
  pyStartsWith (pyStrip s) "wp:" || pyStartsWith (pyStrip s) "/wp:"

/-- A node is a comment that is a Gutenberg block marker. -/
def isWpMarkerNode : Node → Bool
  | .comment s => isWpMarkerPayload s
  | _ => false

/-- An open marker at the top level: `str(n).strip().startswith("wp:")`. -/
def isOpenMarkerNode : Node → Bool
  | .comment s => pyStartsWith (pyStrip s) "wp:"
  | _ => false

/-- A close marker at the top level: `str(n).strip().startswith("/wp:")`. -/
def isCloseMarkerNode : Node → Bool
  | .comment s => pyStartsWith (pyStrip s) "/wp:"
  | _ => false

mutual

/-- Embeds `tag.get_text(separator="", strip=True)`: concatenation of the stripped
text descendants (comment payloads are not included, see header). -/
def getTextStrip : Node → String
  | .elem _ cs => getTextStripF cs
  | .text s => pyStrip s
  | .comment _ => ""

/-- See `getTextStrip`. -/
def getTextStripF : List Node → String
  | [] => ""
  | n :: ns => getTextStrip n ++ getTextStripF ns

end

mutual

/-- Is this node, or an element below it, tagged `t`? -/
def containsTagNode (t : String) : Node → Bool
  | .elem t' cs => t' = t || containsTag t cs
  | _ => false

/-- Does the forest contain an element with tag `t` (at any depth)? -/
def containsTag (t : String) : List Node → Bool
  | [] => false
  | n :: ns => containsTagNode t n || containsTag t ns

end

/-- Does the forest contain a `p` element at any depth? -/
def containsP (ns : List Node) : Bool := containsTag "p" ns

mutual

/-- Is this node, or a descendant, an element whose tag belongs to `l`? -/
def hasMediaDescNode (l : List String) : Node → Bool
  | .elem t cs => l.contains t || hasMediaDescAux l cs
  | _ => false

/-- See `hasMediaDescNode`. -/
def hasMediaDescAux (l : List String) : List Node → Bool
  | [] => false
  | n :: ns => hasMediaDescNode l n || hasMediaDescAux l ns

end

mutual

/-- Is this node, or a descendant, a `NavigableString` (text or comment)
with non-blank content?  Comments count, because `Comment` is a
`NavigableString` in bs4. -/
def hasNonBlankStringDescNode : Node → Bool
  | .elem _ cs => hasNonBlankStringDesc cs
  | .text s => !pyBlank s
  | .comment s => !pyBlank s

/-- See `hasNonBlankStringDescNode`. -/
def hasNonBlankStringDesc : List Node → Bool
  | [] => false
  | n :: ns => hasNonBlankStringDescNode n || hasNonBlankStringDesc ns

end

/-- The text-postprocessing done by `is_effectively_empty`:
`.replace("\xa0", "").replace("&nbsp;", "").strip()` applied to a
`get_text` result, compared with `""`. -/
def cleanedTextEmpty (s : String) : Bool :=
  pyBlank (pyReplace (pyReplace s "\xa0" "") "&nbsp;" "")

/-- One child test of the loop in `is_effectively_empty`: `true` means the
loop `continue`s, `false` means the function returns `False`. -/
def effEmptyChildOk : Node → Bool
  | .elem t cs =>
      if t = "br" then true
      else if NON_EMPTY_INLINE_OK.contains t then false
      else if !cleanedTextEmpty (getTextStripF cs) then false
      else !hasMediaDescAux NON_EMPTY_INLINE_OK cs
  | .text s => pyBlank s
  | .comment s => pyBlank s

/-- Embeds `is_effectively_empty(tag)` from the source, on the children of the tag. -/
def isEffectivelyEmpty (cs : List Node) : Bool :=
  cs.all effEmptyChildOk && cleanedTextEmpty (getTextStripF cs)

/-- Embeds `p_is_wp_comment_wrapper(p)` from the source, on the children of the tag.
Because `Comment <: NavigableString`, a comment child takes the
`NavigableString` branch: it passes only when its payload is blank, so the
Gutenberg-comment `elif` of the source is dead and the predicate accepts
exactly (blank text/comment | `br`)-only paragraphs. -/
def pIsWpCommentWrapper (cs : List Node) : Bool :=
  cs.all fun child =>
    match child with
    | .text s => pyBlank (pyReplace s "\xa0" " ")
    | .comment s => pyBlank (pyReplace s "\xa0" " ")
    | .elem t _ => t = "br"

/-- Embeds `_node_has_visible_content(node)` from the source.  Comments take the
`NavigableString` branch (non-blank comments count as visible); the
`isinstance(node, Comment)` branch of the source is dead code. -/
def nodeHasVisibleContent : Node → Bool
  | .text s => !pyBlank s
  | .comment s => !pyBlank s
  | .elem t cs =>
      VISIBLE_MEDIA_TAGS.contains t ||
      !(getTextStripF cs).isEmpty ||
      hasMediaDescAux VISIBLE_MEDIA_TAGS cs ||
      hasNonBlankStringDesc cs

/-- Firing condition of `unwrap_p_around_block`: some direct child is an
element whose tag is block-level. -/
def hasBlockChild (cs : List Node) : Bool :=
  cs.any fun c =>
    match c with
    | .elem t _ => BLOCK_LEVEL_TAGS.contains t
    | _ => false

mutual

/-- Embeds `unwrap_children(p, "p")` on one node: a `p` element is replaced by its
(recursively unwrapped) children, counting one per `p`; any other element
keeps its tag around its unwrapped children; text and comments pass
through.  The source snapshots `tag.find_all("p")` and unwraps each; since
`unwrap` splices the children of a node into its place, the result is this fully
flattened form and the count is the number of `p` descendants, independent
of the order of the unwraps. -/
def unwrapPsNode : Node → List Node × Nat
  | .elem t cs =>
      let u := unwrapPs cs
      if t = "p" then (u.1, u.2 + 1) else ([.elem t u.1], u.2)
  | n => ([n], 0)

/-- See `unwrapPsNode`. -/
def unwrapPs : List Node → List Node × Nat
  | [] => ([], 0)
  | n :: ns =>
      let a := unwrapPsNode n
      let b := unwrapPs ns
      (a.1 ++ b.1, a.2 + b.2)

end

/-- Per-run statistics of `normalize_paragraphs` (one field per counter of
the source, plus the iteration count). -/
structure NormStats where
  nested_p_fixed : Nat
  empty_p_removed : Nat
  block_wraps_unwrapped : Nat
  wp_comment_wrapper_removed : Nat
  comments_extracted_from_p : Nat
  iterations : Nat
deriving Repr

/-- The counter deltas contributed by one pass of the fixed-point loop. -/
structure PassDelta where
  nested : Nat
  empty : Nat
  block : Nat
  wrapper : Nat
deriving Repr

/-- No delta. -/
def PassDelta.zero : PassDelta := ⟨0, 0, 0, 0⟩

/-- Componentwise sum of deltas. -/
def PassDelta.add (a b : PassDelta) : PassDelta :=
  ⟨a.nested + b.nested, a.empty + b.empty, a.block + b.block,
   a.wrapper + b.wrapper⟩

/-- In the source every site that mutates the tree or increments a counter
also sets `changed = True`, and those are the only sites setting it; a pass
left `changed` true exactly when some counter delta is non-zero. -/
def PassDelta.changed (d : PassDelta) : Bool :=
  d.nested + d.empty + d.block + d.wrapper != 0

/-- The list `comments_to_move` of `extract_comments_from_p_tags` for one `p`:
the direct children that are Gutenberg marker comments. -/
def commentsToMove (cs : List Node) : List Node :=
  cs.filter isWpMarkerNode

mutual

/-- Embeds `extract_comments_from_p_tags(soup)` on one node of the snapshot
`soup.find_all("p")` (processed in pre-order; the recursion is
observationally equal to the snapshot loop of the source because processing a
`p` only mutates its own children and its following siblings, and a `p`
decomposed before its visit has empty contents, making its visit a no-op).
For a `p`: its direct marker comments are `extract()`ed and then
`p.insert_after`ed one by one — successive insertions immediately after the
`p` accumulate the moved comments after it in reverse order; if at least
one comment was moved and the `p` is then effectively empty it is
decomposed (its not-yet-visited descendants die unvisited); otherwise the
kept children are processed in turn.  Returns the nodes replacing this node
(the node itself, possibly rewritten, followed by the moved comments) and
the extraction count. -/
def extractNode : Node → List Node × Nat
  | .elem t cs =>
      if t = "p" then
        let moved := commentsToMove cs
        let after := moved.foldl (fun acc c => c :: acc) []
        if moved.length != 0 &&
            isEffectivelyEmpty (cs.filter fun c => !isWpMarkerNode c) then
          (after, moved.length)
        else
          let k := extractKept cs
          (.elem t k.1 :: after, moved.length + k.2)
      else
        let k := extractForest cs
        ([.elem t k.1], k.2)
  | n => ([n], 0)

/-- The snapshot loop of `extract_comments_from_p_tags` over a forest. -/
def extractForest : List Node → List Node × Nat
  | [] => ([], 0)
  | n :: ns =>
      let a := extractNode n
      let b := extractForest ns
      (a.1 ++ b.1, a.2 + b.2)

/-- The snapshot loop over the children a `p` keeps after its marker
comments were extracted (equal to `extractForest` of the filtered
children; the marker children are simply skipped). -/
def extractKept : List Node → List Node × Nat
  | [] => ([], 0)
  | n :: ns =>
      let b := extractKept ns
      if isWpMarkerNode n then b
      else
        let a := extractNode n
        (a.1 ++ b.1, a.2 + b.2)

end

/-- The body of the `for p in p_tags` loop of `normalize_paragraphs` for one
live `p` element with children `cs`: the rules are applied in the source
order — (1) wrapper removal (`continue`), (2) unconditional nested-`p`
unwrap, (3) block unwrap on the updated children (`continue`), (4) empty
removal on the updated children.  Returns the nodes replacing the `p` in
the child list of its parent, together with the deltas (nested, empty, block,
wrapper).  The wrapper delta includes one removal per nested `p` unwrapped
by rule 2: those nodes are later snapshot entries that are detached when
visited, satisfy `p_is_wp_comment_wrapper` vacuously, and are
re-`decompose`d, incrementing the wrapper counter (see header). -/
def processP (ro uo : Bool) (cs : List Node) : List Node × PassDelta :=
  if pIsWpCommentWrapper cs then ([], ⟨0, 0, 0, 1⟩)
  else
    let u := unwrapPs cs
    if uo && hasBlockChild u.1 then (u.1, ⟨u.2, 0, 1, u.2⟩)
    else if ro && isEffectivelyEmpty u.1 then ([], ⟨u.2, 1, 0, u.2⟩)
    else ([.elem "p" u.1], ⟨u.2, 0, 0, u.2⟩)

mutual

/-- One snapshot pass of the `while` loop of `normalize_paragraphs`, on one
node: a `p` is processed by `processP`; any other element keeps its tag and
has the pass applied to its children (reaching the `p`s of the snapshot at
any depth); text and comments are untouched. -/
def passTop (ro uo : Bool) : Node → List Node × PassDelta
  | .elem t cs =>
      if t = "p" then processP ro uo cs
      else
        let r := passForest ro uo cs
        ([.elem t r.1], r.2)
  | n => ([n], PassDelta.zero)

/-- One snapshot pass over a forest (see `passTop`). -/
def passForest (ro uo : Bool) : List Node → List Node × PassDelta
  | [] => ([], PassDelta.zero)
  | n :: ns =>
      let a := passTop ro uo n
      let b := passForest ro uo ns
      (a.1 ++ b.1, a.2.add b.2)

end

/-- The `while changed and safety_counter < 50` loop of
`normalize_paragraphs`: `fuel` is `50 - safety_counter`; each round runs
one pass, increments the iteration count, and stops when the pass reports
no change or the fuel (safety cap) runs out. -/
def normLoop (ro uo : Bool) : Nat → List Node → Nat → PassDelta →
    List Node × PassDelta × Nat
  | 0, f, iter, acc => (f, acc, iter)
  | fuel + 1, f, iter, acc =>
      let r := passForest ro uo f
      if r.2.changed then normLoop ro uo fuel r.1 (iter + 1) (acc.add r.2)
      else (r.1, acc.add r.2, iter + 1)

/-- Embeds `normalize_paragraphs(soup, remove_empty, unwrap_block_wrapped_p)`:
first the comment-extraction phase, then the fixed-point loop (safety cap
50), returning the rewritten forest and the statistics dictionary. -/
def normalizeParagraphs (ro uo : Bool) (f : List Node) :
    List Node × NormStats :=
  let e := extractForest f
  let l := normLoop ro uo 50 e.1 0 PassDelta.zero
  (l.1,
   { nested_p_fixed := l.2.1.nested,
     empty_p_removed := l.2.1.empty,
     block_wraps_unwrapped := l.2.1.block,
     wp_comment_wrapper_removed := l.2.1.wrapper,
     comments_extracted_from_p := e.2,
     iterations := l.2.2 })

/-- Split a sibling list at the first close marker: returns the nodes before
it and the nodes after it (the inner `while j < len(nodes)` scan of
`remove_empty_gutenberg_blocks`). -/
def splitAtFirstClose : List Node → Option (List Node × List Node)
  | [] => none
  | n :: ns =>
      if isCloseMarkerNode n then some ([], ns)
      else
        match splitAtFirstClose ns with
        | some (mid, after) => some (n :: mid, after)
        | none => none

/-- Embeds `remove_empty_gutenberg_blocks(soup)` on the children of the container
(body when present, else the soup itself): scan left to right; at an open
marker, look for the first close marker among the remaining siblings; if
one exists and no intervening sibling has visible content, delete the whole
region (open marker, close marker and everything between) and continue
scanning at the position right after the deleted region (`i` is unchanged
while `nodes` is re-listed); otherwise keep the open marker and resume at
the next sibling (`i += 1`), i.e. right after the open marker, not after
the close.  The fuel only bounds the recursion depth (each step scans a
strictly shorter list, so `length + 1` never runs out). -/
def removeEmptyGutenbergBlocksGo : Nat → List Node → List Node × Nat
  | 0, l => (l, 0)
  | _ + 1, [] => ([], 0)
  | fuel + 1, n :: rest =>
      if isOpenMarkerNode n then
        match splitAtFirstClose rest with
        | some (mid, after) =>
            if mid.any nodeHasVisibleContent then
              let r := removeEmptyGutenbergBlocksGo fuel rest
              (n :: r.1, r.2)
            else
              let r := removeEmptyGutenbergBlocksGo fuel after
              (r.1, r.2 + 1)
        | none =>
            let r := removeEmptyGutenbergBlocksGo fuel rest
            (n :: r.1, r.2)
      else
        let r := removeEmptyGutenbergBlocksGo fuel rest
        (n :: r.1, r.2)

/-- See `removeEmptyGutenbergBlocksGo`. -/
def removeEmptyGutenbergBlocks (l : List Node) : List Node × Nat :=
  removeEmptyGutenbergBlocksGo (l.length + 1) l

/-- Minimal bs4 HTML escaping of character data (`&`, `<`, `>`). -/
def escapeHtml (s : String) : String :=
  s.data.foldl
    (fun acc c =>
      if c = '&' then acc ++ "&amp;"
      else if c = '<' then acc ++ "&lt;"
      else if c = '>' then acc ++ "&gt;"
      else acc.push c) ""

/-- Tags that bs4 serializes as empty-element tags when childless. -/
def VOID_TAGS : List String := ["br", "hr", "img", "input", "meta", "link"]

mutual

/-- Embeds `str(node)`, the default bs4 serialization of a node (comments keep their
stored payload between the delimiters). -/
def renderNode : Node → String
  | .text s => escapeHtml s
  | .comment s => "<!--" ++ s ++ "-->"
  | .elem t cs =>
      if VOID_TAGS.contains t && cs.isEmpty then "<" ++ t ++ "/>"
      else "<" ++ t ++ ">" ++ renderForest cs ++ "</" ++ t ++ ">"

/-- Concatenated `str` of a node list. -/
def renderForest : List Node → String
  | [] => ""
  | n :: ns => renderNode n ++ renderForest ns

end

/-- Embeds `to_html(node)` from `serialize_fragment`: a Gutenberg marker comment is
re-emitted with its stripped payload and no surrounding spaces; any other
comment is re-emitted as `<!-- payload.strip() -->`; other nodes use
`str(node)`. -/
def toHtmlTop : Node → String
  | .comment s =>
      let t := pyStrip s
      if pyStartsWith t "wp:" || pyStartsWith t "/wp:" then
        "<!--" ++ t ++ "-->"
      else "<!-- " ++ t ++ " -->"
  | n => renderNode n

/-- The `parts` loop of `serialize_fragment`: top-level children with blank
`NavigableString` content (blank text nodes and blank comments) are skipped,
the rest are rendered by `to_html`. -/
def serializeParts (f : List Node) : List String :=
  (f.filter fun n =>
      match n with
      | .text s => !pyBlank s
      | .comment s => !pyBlank s
      | .elem _ _ => true).map toHtmlTop

/-- Modelled from the spec: `prettify` re-parses the emitted text and renders
it with indentation, "strictly cosmetic" (§4.3); the underlying renderer is
the out-of-scope parser.  No claim depends on the prettified layout, so it
is embedded as the identity on the text. -/
def prettifyModel (s : String) : String := s

/-- Modelled from the spec: the serialization of the whole document
(`str(soup)`) used when the wrapper is kept or no body exists; with a body
the document shell of the out-of-scope parser surrounds the children. -/
def renderDoc (hasBody : Bool) (f : List Node) : String :=
  if hasBody then
    "<html><head></head><body>" ++ renderForest f ++ "</body></html>"
  else renderForest f

/-- A token of the literal/whitespace regular expressions used by the final
cleanup of `fix_html_content`: a literal string, or `\s*`. -/
inductive RTok where
  | lit (s : String)
  | ws0
deriving Repr

/-- Match a literal/whitespace pattern at the head of `l`; returns the
remainder after the match.  `\s*` is consumed greedily, which coincides with
the Python backtracking semantics here because in every pattern used a `\s*`
is followed by a literal starting with a non-whitespace character (or ends
the pattern, where greedy is maximal anyway). -/
def matchToks : List RTok → List Char → Option (List Char)
  | [], l => some l
  | .lit s :: ts, l =>
      if s.data.isPrefixOf l then matchToks ts (l.drop s.data.length)
      else none
  | .ws0 :: ts, l => matchToks ts (l.dropWhile pyIsSpace)

/-- Embeds `re.sub(pattern, "", s)` for a literal/whitespace pattern: scan left to
right, at each position delete the leftmost match and continue right after
it, otherwise keep one character and move on. -/
def subAllAux (ts : List RTok) : Nat → List Char → List Char
  | 0, l => l
  | _ + 1, [] => []
  | fuel + 1, c :: l =>
      match matchToks ts (c :: l) with
      | some rem => subAllAux ts fuel rem
      | none => c :: subAllAux ts fuel l

/-- Embeds `re.sub(pattern, "", s)` (empty replacement). -/
def reSubEmpty (ts : List RTok) (s : String) : String :=
  ⟨subAllAux ts (s.data.length + 1) s.data⟩

/-- The first final-cleanup pattern, regex `<p>\s*<span>\s*</span>\s*</p>\s*`. -/
def P1 : List RTok :=
  [.lit "<p>", .ws0, .lit "<span>", .ws0, .lit "</span>", .ws0, .lit "</p>",
   .ws0]

/-- The second final-cleanup pattern, regex `<p><span></span></p>\s*`. -/
def P1b : List RTok := [.lit "<p><span></span></p>", .ws0]

/-- The third final-cleanup pattern: a no-space close `wp:paragraph` marker,
`\s*`, then an open `wp:paragraph` marker with optional inner spaces. -/
def P2a : List RTok :=
  [.lit "<!--/wp:paragraph-->", .ws0, .lit "<!--", .ws0, .lit "wp:paragraph",
   .ws0, .lit "-->"]

/-- The fourth final-cleanup pattern: a close `wp:paragraph` marker with
optional inner spaces, `\s*`, then an open `wp:paragraph` marker with
optional inner spaces. -/
def P2b : List RTok :=
  [.lit "<!--", .ws0, .lit "/wp:paragraph", .ws0, .lit "-->", .ws0,
   .lit "<!--", .ws0, .lit "wp:paragraph", .ws0, .lit "-->"]

/-- The lazy body of the spacing regex (group `/?wp:` then `[^>]+?` then `\s+` then the close delimiter): starting after the
`wp:` prefix, find the shortest non-empty run of non-`>` characters followed
by at least one whitespace character and the literal `-->`; returns the body
and the remainder after `-->`. -/
def p0FindEnd : Nat → List Char → List Char → Option (List Char × List Char)
  | 0, _, _ => none
  | fuel + 1, acc, l =>
      match l with
      | [] => none
      | c :: l' =>
          if c = '>' then none
          else
            let acc' := acc ++ [c]
            let rest := l'.dropWhile pyIsSpace
            if (l'.takeWhile pyIsSpace).length ≥ 1 &&
                ['-', '-', '>'].isPrefixOf rest then
              some (acc', rest.drop 3)
            else p0FindEnd fuel acc' l'

/-- One match attempt of the spacing regex (comment opener, `\s+`, group, `\s+`, closer) at the head of
`l`; on success returns the replacement (the group in a tight comment) and the remainder.  The
greedy `\s+` commits to the maximal whitespace run because the group starts
with a non-whitespace character. -/
def p0MatchAt (l : List Char) : Option (String × List Char) :=
  if ['<', '!', '-', '-'].isPrefixOf l then
    let r1 := l.drop 4
    if (r1.takeWhile pyIsSpace).length ≥ 1 then
      let r2 := r1.dropWhile pyIsSpace
      let sl : String × List Char :=
        match r2 with
        | '/' :: tl => ("/", tl)
        | _ => ("", r2)
      if ['w', 'p', ':'].isPrefixOf sl.2 then
        match p0FindEnd (sl.2.length + 1) [] (sl.2.drop 3) with
        | some (body, rest) =>
            some ("<!--" ++ sl.1 ++ "wp:" ++ ⟨body⟩ ++ "-->", rest)
        | none => none
      else none
    else none
  else none

/-- The comment-spacing normalization of `serialize_fragment`:
`re.sub` of the spaced-marker pattern with replacement `<!--\1-->`. -/
def subP0Aux : Nat → List Char → List Char
  | 0, l => l
  | _ + 1, [] => []
  | fuel + 1, c :: l =>
      match p0MatchAt (c :: l) with
      | some (repl, rem) => repl.data ++ subP0Aux fuel rem
      | none => c :: subP0Aux fuel l

/-- See `subP0Aux`. -/
def subP0 (s : String) : String :=
  ⟨subP0Aux (s.data.length + 1) s.data⟩

/-- Embeds `serialize_fragment(soup, strip_document_wrapper, prettify)`: with the
wrapper stripped and a body present, join the `to_html` parts with newlines
and strip; otherwise `str(soup)`; then normalize marker-comment spacing;
then optionally prettify (cosmetic). -/
def serializeFragment (stripWrapper prettify hasBody : Bool)
    (f : List Node) : String :=
  let html :=
    if stripWrapper && hasBody then
      pyStrip (String.intercalate "\n" (serializeParts f))
    else renderDoc hasBody f
  let html := subP0 html
  if prettify then prettifyModel html else html

/-- Python `s.count(sub)` (non-overlapping occurrences). -/
def countSubstrAux (pat : List Char) : Nat → List Char → Nat
  | 0, _ => 0
  | _ + 1, [] => 0
  | fuel + 1, c :: l =>
      if pat.isPrefixOf (c :: l) then
        1 + countSubstrAux pat fuel ((c :: l).drop pat.length)
      else countSubstrAux pat fuel l

/-- Python `s.count(sub)`. -/
def countSubstr (pat s : String) : Nat :=
  countSubstrAux pat.data (s.data.length + 1) s.data

/-- Does `s` contain `pat` as a substring? -/
def containsSubstr (pat s : String) : Bool :=
  countSubstr pat s != 0

/-- The result dictionary of `fix_html_content`: an `error` key, a `warning`
key, or the statistics of a successful run (the two `final_cleanup_*` keys
are only present when their counts are positive). -/
inductive FixStats where
  | error (msg : String)
  | warning (msg : String)
  | ok (norm : NormStats) (empty_wp_blocks_removed : Nat)
      (final_cleanup_empty_span : Option Nat)
      (final_cleanup_comment_pairs : Option Nat)
deriving Repr

/-- The outcome of the out-of-scope parse step (§2 OUT OF SCOPE of the
spec): whether the chosen parser builds an `<html><body>` shell, and the
forest of top-level children. -/
structure Parsed where
  hasBody : Bool
  forest : List Node
deriving Repr

/-- The keyword options of `fix_html_content`. -/
structure FixOpts where
  removeEmpty : Bool
  unwrapBlockWrappedP : Bool
  prettify : Bool
  stripDocumentWrapper : Bool
deriving Repr

/-- The defaults of `fix_html_content`. -/
def defaultOpts : FixOpts := ⟨true, true, false, true⟩

/-- Embeds `pick_parser()` with the pinned requirements (html5lib available). -/
def pickParser : String := "html5lib"

/-- The successful path of `fix_html_content` after the parse: paragraph
normalization, empty-block sweep, fragment serialization, and the final
regex cleanup with its two bookkeeping counts.  Returns
(fixed text, norm stats, empty blocks removed, `empty_span_count`,
`comment_pairs_removed`). -/
def fixPipeline (o : FixOpts) (p : Parsed) :
    String × NormStats × Nat × Nat × Nat :=
  let n := normalizeParagraphs o.removeEmpty o.unwrapBlockWrappedP p.forest
  let b := removeEmptyGutenbergBlocks n.1
  let before := serializeFragment o.stripDocumentWrapper o.prettify
    p.hasBody b.1
  let fixed1 := reSubEmpty P1 before
  let fixed2 := reSubEmpty P1b fixed1
  let fixed3 := reSubEmpty P2a fixed2
  let fixed4 := reSubEmpty P2b fixed3
  (fixed4, n.2, b.2, countSubstr "<p><span></span></p>" before,
   countSubstr "<!--/wp:paragraph-->" before -
     countSubstr "<!--/wp:paragraph-->" fixed4)

/-- Embeds `fix_html_content(html, ...)`: the input-validation guards, then the
parse (an out-of-scope collaborator, §2 of the spec, here an explicit
argument: `Except.error` is a parser exception caught by the
`try/except`), then the pipeline. -/
def fixHtmlContent (html : String) (o : FixOpts)
    (pr : Except String Parsed) : String × FixStats × String :=
  if html.data.isEmpty || pyBlank html then
    (html, .error "Empty HTML provided", pickParser)
  else if html.length < 10 then
    (html, .warning "HTML seems too short - might be incomplete", pickParser)
  else
    match pr with
    | .error e => (html, .error ("Processing failed: " ++ e), pickParser)
    | .ok p =>
        let r := fixPipeline o p
        (r.1,
         .ok r.2.1 r.2.2.1
           (if r.2.2.2.1 > 0 then some r.2.2.2.1 else none)
           (if r.2.2.2.2 > 0 then some r.2.2.2.2 else none),
         pickParser)

/-- The comment payload read by a parser from `<!--` up to `-->`. -/
def takeCommentPayload : Nat → List Char → List Char × List Char
  | 0, l => ([], l)
  | _ + 1, [] => ([], [])
  | fuel + 1, c :: l =>
      if ['-', '-', '>'].isPrefixOf (c :: l) then ([], (c :: l).drop 3)
      else
        let r := takeCommentPayload fuel l
        (c :: r.1, r.2)

/-- Modelled from the spec: the out-of-scope HTML parser interface
(`parse(text, parserName) → tree`, §2 OUT OF SCOPE), restricted to input
texts that START with non-blank plain text and otherwise consist only of
comments `<!--payload-->` and plain text containing no `<`.  The leading
non-blank character moves a conforming parser into body insertion mode,
after which every comment and text token becomes a child of `body` in
order, so such a text parses to the evident sequence of text and comment
nodes as the body forest.  (A comment BEFORE any non-blank text would
instead attach to the document, outside the body, so this model is only
ever applied to text-leading inputs.)  Used only to relate a concrete
serialized output back to its parse, always with `hasBody = true`. -/
def parseCommentsAndText : Nat → List Char → List Node
  | 0, _ => []
  | _ + 1, [] => []
  | fuel + 1, c :: l =>
      if ['<', '!', '-', '-'].isPrefixOf (c :: l) then
        let r := takeCommentPayload (l.length + 1) ((c :: l).drop 4)
        .comment ⟨r.1⟩ :: parseCommentsAndText fuel r.2
      else
        let txt := (c :: l).takeWhile (· ≠ '<')
        .text ⟨txt⟩ :: parseCommentsAndText fuel ((c :: l).drop txt.length)

/-- See `parseCommentsAndText`. -/
def parseCT (s : String) : List Node :=
  parseCommentsAndText (s.data.length + 1) s.data

mutual

/-- No `p` element at or below this node has a `p` element among its
descendants (the no-nesting invariant of the spec). -/
def noNestedNode : Node → Bool
  | .elem t cs => (if t = "p" then !containsP cs else true) && noNestedPB cs
  | _ => true

/-- See `noNestedNode`. -/
def noNestedPB : List Node → Bool
  | [] => true
  | n :: ns => noNestedNode n && noNestedPB ns

end

mutual

/-- Every `p` element at or below this node fails all four rule conditions
of one normalization pass: it is not a wrapper, has no nested `p`, has no
block child (when unwrapping is on), and is not effectively empty (when
empty removal is on).  A forest with this property is a fixed point of the
pass. -/
def passFixedNode (ro uo : Bool) : Node → Bool
  | .elem t cs =>
      if t = "p" then
        !pIsWpCommentWrapper cs && !containsP cs &&
        !(uo && hasBlockChild cs) && !(ro && isEffectivelyEmpty cs)
      else passFixedB ro uo cs
  | _ => true

/-- See `passFixedNode`. -/
def passFixedB (ro uo : Bool) : List Node → Bool
  | [] => true
  | n :: ns => passFixedNode ro uo n && passFixedB ro uo ns

end

/-- The comment payload of a node (`""` for non-comments); used to compare
marker sequences up to node identity. -/
def payloadStr : Node → String
  | .comment s => s
  | _ => ""

/-- Modelled from the claim (C5): the per-element rule order as the claim
states it — comment-only removal first, then empty-paragraph removal, then
block-unwrap, taking the first matching action and skipping the rest;
nested-paragraph unwrapping fires independently of the other three. -/
def processPSpecOrder (ro uo : Bool) (cs : List Node) :
    List Node × PassDelta :=
  if pIsWpCommentWrapper cs then ([], ⟨0, 0, 0, 1⟩)
  else if ro && isEffectivelyEmpty cs then ([], ⟨0, 1, 0, 0⟩)
  else if uo && hasBlockChild cs then (cs, ⟨0, 0, 1, 0⟩)
  else
    let u := unwrapPs cs
    ([.elem "p" u.1], ⟨u.2, 0, 0, u.2⟩)

/-- Modelled from the amended claim (C5): the rule order actually
implemented — comment-only removal (stops processing of the element), then
the unconditional nested-`p` unwrap (does not stop), then block-unwrap on
the updated children (stops), then empty removal on the updated children;
the nested-unwrap rule never skips later rules. -/
def processPOrdered (ro uo : Bool) (cs : List Node) : List Node × PassDelta :=
  if pIsWpCommentWrapper cs then ([], ⟨0, 0, 0, 1⟩)
  else
    let u := unwrapPs cs
    let base : PassDelta := ⟨u.2, 0, 0, u.2⟩
    if uo && hasBlockChild u.1 then (u.1, base.add ⟨0, 0, 1, 0⟩)
    else if ro && isEffectivelyEmpty u.1 then ([], base.add ⟨0, 1, 0, 0⟩)
    else ([.elem "p" u.1], base)

theorem containsTag_append (t : String) (a b : List Node) :
    containsTag t (a ++ b) = (containsTag t a || containsTag t b) := by
  induction a with
  | nil => simp [containsTag]
  | cons n ns ih => simp [containsTag, ih, Bool.or_assoc]

theorem containsP_append (a b : List Node) :
    containsP (a ++ b) = (containsP a || containsP b) :=
  containsTag_append "p" a b

mutual

/-- Rule 2 leaves no `p` element anywhere below the processed node. -/
theorem unwrapPsNode_containsP (n : Node) :
    containsP (unwrapPsNode n).1 = false := by
  cases n with
  | elem t cs =>
      by_cases htp : t = "p"
      · simp only [unwrapPsNode, if_pos htp]
        exact unwrapPs_containsP cs
      · simp only [unwrapPsNode, if_neg htp, containsP, containsTag,
          containsTagNode, Bool.or_eq_false_iff]
        refine ⟨⟨by simpa using htp, ?_⟩, trivial⟩
        exact unwrapPs_containsP cs
  | text s => simp [unwrapPsNode, containsP, containsTag, containsTagNode]
  | comment s => simp [unwrapPsNode, containsP, containsTag, containsTagNode]

/-- See `unwrapPsNode_containsP`. -/
theorem unwrapPs_containsP (cs : List Node) :
    containsP (unwrapPs cs).1 = false := by
  cases cs with
  | nil => simp [unwrapPs, containsP, containsTag]
  | cons n ns =>
      simp only [unwrapPs, containsP, containsTag_append,
        Bool.or_eq_false_iff]
      exact ⟨unwrapPsNode_containsP n, unwrapPs_containsP ns⟩

end

mutual

/-- When the node has no `p` element, rule 2 is the identity with count 0. -/
theorem unwrapPsNode_id (n : Node) (h : containsTagNode "p" n = false) :
    unwrapPsNode n = ([n], 0) := by
  cases n with
  | elem t cs =>
      simp only [containsTagNode, Bool.or_eq_false_iff] at h
      have htp : ¬t = "p" := by simpa using h.1
      simp only [unwrapPsNode, if_neg htp, unwrapPs_id cs h.2]
  | text s => simp [unwrapPsNode]
  | comment s => simp [unwrapPsNode]

/-- See `unwrapPsNode_id`. -/
theorem unwrapPs_id (cs : List Node) (h : containsP cs = false) :
    unwrapPs cs = (cs, 0) := by
  cases cs with
  | nil => simp [unwrapPs]
  | cons n ns =>
      simp only [containsP, containsTag, Bool.or_eq_false_iff] at h
      simp only [unwrapPs, unwrapPsNode_id n h.1, unwrapPs_id ns h.2]
      simp

end

mutual

/-- If rule 2 counted nothing at this node, it changed nothing. -/
theorem unwrapPsNode_snd_zero (n : Node) (h : (unwrapPsNode n).2 = 0) :
    (unwrapPsNode n).1 = [n] := by
  cases n with
  | elem t cs =>
      by_cases htp : t = "p"
      · simp only [unwrapPsNode, if_pos htp] at h
        omega
      · simp only [unwrapPsNode, if_neg htp] at h ⊢
        rw [unwrapPs_snd_zero cs h]
  | text s => simp [unwrapPsNode]
  | comment s => simp [unwrapPsNode]

/-- See `unwrapPsNode_snd_zero`. -/
theorem unwrapPs_snd_zero (cs : List Node) (h : (unwrapPs cs).2 = 0) :
    (unwrapPs cs).1 = cs := by
  cases cs with
  | nil => simp [unwrapPs]
  | cons n ns =>
      simp only [unwrapPs] at h ⊢
      have ha : (unwrapPsNode n).2 = 0 := by omega
      have hb : (unwrapPs ns).2 = 0 := by omega
      rw [unwrapPsNode_snd_zero n ha, unwrapPs_snd_zero ns hb]
      simp

end

theorem noNestedPB_append (a b : List Node) :
    noNestedPB (a ++ b) = (noNestedPB a && noNestedPB b) := by
  induction a with
  | nil => simp [noNestedPB]
  | cons n ns ih => simp [noNestedPB, ih, Bool.and_assoc]

theorem passFixedB_append (ro uo : Bool) (a b : List Node) :
    passFixedB ro uo (a ++ b) =
      (passFixedB ro uo a && passFixedB ro uo b) := by
  induction a with
  | nil => simp [passFixedB]
  | cons n ns ih => simp [passFixedB, ih, Bool.and_assoc]

mutual

/-- A node with no `p` element trivially satisfies the no-nesting
invariant. -/
theorem not_containsP_noNestedNode (n : Node)
    (h : containsTagNode "p" n = false) : noNestedNode n = true := by
  cases n with
  | elem t cs =>
      simp only [containsTagNode, Bool.or_eq_false_iff] at h
      have htp : ¬t = "p" := by simpa using h.1
      simp [noNestedNode, if_neg htp, not_containsP_noNestedPB cs h.2]
  | text s => simp [noNestedNode]
  | comment s => simp [noNestedNode]

/-- See `not_containsP_noNestedNode`. -/
theorem not_containsP_noNestedPB (l : List Node) (h : containsP l = false) :
    noNestedPB l = true := by
  cases l with
  | nil => simp [noNestedPB]
  | cons n ns =>
      simp only [containsP, containsTag, Bool.or_eq_false_iff] at h
      simp [noNestedPB, not_containsP_noNestedNode n h.1,
        not_containsP_noNestedPB ns h.2]

end

mutual

/-- A node with no `p` element is vacuously a fixed point of the pass. -/
theorem not_containsP_passFixedNode (ro uo : Bool) (n : Node)
    (h : containsTagNode "p" n = false) : passFixedNode ro uo n = true := by
  cases n with
  | elem t cs =>
      simp only [containsTagNode, Bool.or_eq_false_iff] at h
      have htp : ¬t = "p" := by simpa using h.1
      simp [passFixedNode, if_neg htp,
        not_containsP_passFixedB ro uo cs h.2]
  | text s => simp [passFixedNode]
  | comment s => simp [passFixedNode]

/-- See `not_containsP_passFixedNode`. -/
theorem not_containsP_passFixedB (ro uo : Bool) (l : List Node)
    (h : containsP l = false) : passFixedB ro uo l = true := by
  cases l with
  | nil => simp [passFixedB]
  | cons n ns =>
      simp only [containsP, containsTag, Bool.or_eq_false_iff] at h
      simp [passFixedB, not_containsP_passFixedNode ro uo n h.1,
        not_containsP_passFixedB ro uo ns h.2]

end

theorem passDelta_changed_false {d : PassDelta} (h : d.changed = false) :
    d = PassDelta.zero := by
  cases d with
  | mk n e b w =>
      simp only [PassDelta.changed, bne_eq_false_iff_eq] at h
      simp only [PassDelta.zero, PassDelta.mk.injEq]
      omega

theorem passDelta_add_zero (d : PassDelta) :
    PassDelta.add d PassDelta.zero = d := by
  cases d; simp [PassDelta.add, PassDelta.zero]

mutual

/-- After one pass, no surviving `p` has a `p` descendant: the
children of every kept `p` went through rule 2. -/
theorem passTop_noNested (ro uo : Bool) (n : Node) :
    noNestedPB (passTop ro uo n).1 = true := by
  cases n with
  | elem t cs =>
      by_cases htp : t = "p"
      · subst htp
        simp only [passTop, if_pos rfl, processP]
        by_cases h1 : pIsWpCommentWrapper cs = true
        · simp [h1, noNestedPB]
        · simp only [h1, if_false, Bool.false_eq_true]
          by_cases h2 : (uo && hasBlockChild (unwrapPs cs).1) = true
          · simp only [h2, if_true]
            exact not_containsP_noNestedPB _ (unwrapPs_containsP cs)
          · simp only [h2, if_false, Bool.false_eq_true]
            by_cases h3 : (ro && isEffectivelyEmpty (unwrapPs cs).1) = true
            · simp [h3, noNestedPB]
            · simp only [h3, if_false, Bool.false_eq_true]
              simp [noNestedPB, noNestedNode, unwrapPs_containsP cs,
                not_containsP_noNestedPB _ (unwrapPs_containsP cs)]
      · simp only [passTop, if_neg htp]
        simp [noNestedPB, noNestedNode, htp, passForest_noNested ro uo cs]
  | text s => simp [passTop, noNestedPB, noNestedNode]
  | comment s => simp [passTop, noNestedPB, noNestedNode]

/-- See `passTop_noNested`. -/
theorem passForest_noNested (ro uo : Bool) (ns : List Node) :
    noNestedPB (passForest ro uo ns).1 = true := by
  cases ns with
  | nil => simp [passForest, noNestedPB]
  | cons n ns =>
      simp only [passForest]
      rw [noNestedPB_append]
      simp [passTop_noNested ro uo n, passForest_noNested ro uo ns]

end

mutual

/-- A node whose `p`s all fail the four rule conditions is untouched by the
pass. -/
theorem passTop_of_fixed (ro uo : Bool) (n : Node)
    (h : passFixedNode ro uo n = true) :
    passTop ro uo n = ([n], PassDelta.zero) := by
  cases n with
  | elem t cs =>
      by_cases htp : t = "p"
      · subst htp
        simp only [passFixedNode, reduceIte, Bool.and_eq_true,
          Bool.not_eq_true'] at h
        obtain ⟨⟨⟨h1, h2⟩, h3⟩, h4⟩ := h
        have hu : unwrapPs cs = (cs, 0) := unwrapPs_id cs h2
        simp [passTop, processP, h1, hu, h3, h4, PassDelta.zero]
      · simp only [passFixedNode, if_neg htp] at h
        simp only [passTop, if_neg htp, passForest_of_fixed ro uo cs h]
  | text s => simp [passTop]
  | comment s => simp [passTop]

/-- See `passTop_of_fixed`. -/
theorem passForest_of_fixed (ro uo : Bool) (ns : List Node)
    (h : passFixedB ro uo ns = true) :
    passForest ro uo ns = (ns, PassDelta.zero) := by
  cases ns with
  | nil => simp [passForest]
  | cons n ns =>
      simp only [passFixedB, Bool.and_eq_true] at h
      simp only [passForest, passTop_of_fixed ro uo n h.1,
        passForest_of_fixed ro uo ns h.2, List.singleton_append,
        passDelta_add_zero]

end

mutual

/-- A pass that contributed no counter deltas left the node unchanged. -/
theorem passTop_of_delta_zero (ro uo : Bool) (n : Node)
    (h : (passTop ro uo n).2 = PassDelta.zero) :
    passTop ro uo n = ([n], PassDelta.zero) := by
  cases n with
  | elem t cs =>
      by_cases htp : t = "p"
      · subst htp
        simp only [passTop, if_pos rfl, processP] at h ⊢
        by_cases h1 : pIsWpCommentWrapper cs = true
        · rw [if_pos h1] at h
          exact absurd (congrArg PassDelta.wrapper h)
            (by simp [PassDelta.zero])
        · rw [if_neg h1] at h ⊢
          by_cases h2 : (uo && hasBlockChild (unwrapPs cs).1) = true
          · rw [if_pos h2] at h
            exact absurd (congrArg PassDelta.block h)
              (by simp [PassDelta.zero])
          · rw [if_neg h2] at h ⊢
            by_cases h3 : (ro && isEffectivelyEmpty (unwrapPs cs).1) = true
            · rw [if_pos h3] at h
              exact absurd (congrArg PassDelta.empty h)
                (by simp [PassDelta.zero])
            · rw [if_neg h3] at h ⊢
              have hk : (unwrapPs cs).2 = 0 := by
                have := congrArg PassDelta.nested h
                simpa [PassDelta.zero] using this
              have h5 := unwrapPs_snd_zero cs hk
              simp [h5, hk, PassDelta.zero]
      · simp only [passTop, if_neg htp] at h ⊢
        have h5 := passForest_of_delta_zero ro uo cs h
        simp [h5]
  | text s => simp [passTop]
  | comment s => simp [passTop]

/-- See `passTop_of_delta_zero`. -/
theorem passForest_of_delta_zero (ro uo : Bool) (ns : List Node)
    (h : (passForest ro uo ns).2 = PassDelta.zero) :
    passForest ro uo ns = (ns, PassDelta.zero) := by
  cases ns with
  | nil => simp [passForest]
  | cons n ns =>
      simp only [passForest] at h ⊢
      have hA : (passTop ro uo n).2 = PassDelta.zero := by
        have h1 := congrArg PassDelta.nested h
        have h2 := congrArg PassDelta.empty h
        have h3 := congrArg PassDelta.block h
        have h4 := congrArg PassDelta.wrapper h
        cases hx : (passTop ro uo n).2 with
        | mk a b c d =>
            cases hy : (passForest ro uo ns).2 with
            | mk a' b' c' d' =>
                rw [hx, hy] at h1 h2 h3 h4
                simp only [PassDelta.add, PassDelta.zero] at h1 h2 h3 h4
                simp only [PassDelta.zero, PassDelta.mk.injEq]
                omega
      have hB : (passForest ro uo ns).2 = PassDelta.zero := by
        have h1 := congrArg PassDelta.nested h
        have h2 := congrArg PassDelta.empty h
        have h3 := congrArg PassDelta.block h
        have h4 := congrArg PassDelta.wrapper h
        cases hx : (passTop ro uo n).2 with
        | mk a b c d =>
            cases hy : (passForest ro uo ns).2 with
            | mk a' b' c' d' =>
                rw [hx, hy] at h1 h2 h3 h4
                simp only [PassDelta.add, PassDelta.zero] at h1 h2 h3 h4
                simp only [PassDelta.zero, PassDelta.mk.injEq]
                omega
      rw [passTop_of_delta_zero ro uo n hA,
        passForest_of_delta_zero ro uo ns hB]
      simp [passDelta_add_zero]

end

mutual

/-- One pass on a nesting-free node leaves a forest in which every `p`
fails all four rule conditions (each kept `p` was checked against exactly
its final children, since rule 2 is the identity on nesting-free input). -/
theorem passTop_estab (ro uo : Bool) (n : Node)
    (h : noNestedNode n = true) :
    passFixedB ro uo (passTop ro uo n).1 = true := by
  cases n with
  | elem t cs =>
      by_cases htp : t = "p"
      · subst htp
        simp only [noNestedNode, reduceIte, Bool.and_eq_true,
          Bool.not_eq_true'] at h
        obtain ⟨hP, -⟩ := h
        have hu : unwrapPs cs = (cs, 0) := unwrapPs_id cs hP
        simp only [passTop, reduceIte, processP, hu]
        by_cases h1 : pIsWpCommentWrapper cs = true
        · simp [h1, passFixedB]
        · simp only [h1, if_false, Bool.false_eq_true]
          by_cases h2 : (uo && hasBlockChild cs) = true
          · simp only [h2, if_true]
            exact not_containsP_passFixedB ro uo cs hP
          · simp only [h2, if_false, Bool.false_eq_true]
            by_cases h3 : (ro && isEffectivelyEmpty cs) = true
            · simp [h3, passFixedB]
            · simp only [h3, if_false, Bool.false_eq_true]
              simp [passFixedB, passFixedNode, h1, hP, h2, h3]
      · simp only [noNestedNode, if_neg htp, Bool.true_and] at h
        simp only [passTop, if_neg htp]
        simp only [passFixedB, passFixedNode, if_neg htp, Bool.and_true]
        exact passForest_estab ro uo cs h
  | text s => simp [passTop, passFixedB, passFixedNode]
  | comment s => simp [passTop, passFixedB, passFixedNode]

/-- See `passTop_estab`. -/
theorem passForest_estab (ro uo : Bool) (ns : List Node)
    (h : noNestedPB ns = true) :
    passFixedB ro uo (passForest ro uo ns).1 = true := by
  cases ns with
  | nil => simp [passForest, passFixedB]
  | cons n ns =>
      simp only [noNestedPB, Bool.and_eq_true] at h
      simp only [passForest]
      rw [passFixedB_append]
      simp [passTop_estab ro uo n h.1, passForest_estab ro uo ns h.2]

end

/-- The safety loop always exits through its no-change branch within three
passes: pass 1 removes all nesting, pass 2 re-checks every `p` against its
final children, and pass 3 finds a fixed point.  The result is a forest
that one further pass maps to itself with zero deltas, the iteration count
is at most `iter + 3`, and the result satisfies the no-nesting invariant. -/
theorem normLoop_three (ro uo : Bool) (fuel : Nat) (f : List Node)
    (iter : Nat) (acc : PassDelta) :
    passForest ro uo (normLoop ro uo (fuel + 1 + 1 + 1) f iter acc).1 =
        ((normLoop ro uo (fuel + 1 + 1 + 1) f iter acc).1, PassDelta.zero) ∧
      (normLoop ro uo (fuel + 1 + 1 + 1) f iter acc).2.2 ≤ iter + 3 ∧
      noNestedPB (normLoop ro uo (fuel + 1 + 1 + 1) f iter acc).1 = true := by
  by_cases hc1 : (passForest ro uo f).2.changed = true
  · simp only [normLoop, hc1, if_true]
    by_cases hc2 : (passForest ro uo (passForest ro uo f).1).2.changed = true
    · simp only [hc2, if_true]
      have hn1 : noNestedPB (passForest ro uo f).1 = true :=
        passForest_noNested ro uo f
      have hfix :
          passFixedB ro uo (passForest ro uo (passForest ro uo f).1).1 =
            true :=
        passForest_estab ro uo _ hn1
      have hid :
          passForest ro uo (passForest ro uo (passForest ro uo f).1).1 =
            ((passForest ro uo (passForest ro uo f).1).1, PassDelta.zero) :=
        passForest_of_fixed ro uo _ hfix
      have hzc : PassDelta.changed PassDelta.zero = false := rfl
      simp only [hid, hzc, Bool.false_eq_true, if_false]
      exact ⟨by simp [hid],
        (by omega : iter + 1 + 1 + 1 ≤ iter + 3),
        passForest_noNested ro uo _⟩
    · have hc2' :
          (passForest ro uo (passForest ro uo f).1).2.changed = false := by
        simpa using hc2
      have hz2 := passDelta_changed_false hc2'
      have hid2 := passForest_of_delta_zero ro uo _ hz2
      simp only [hc2', Bool.false_eq_true, if_false]
      exact ⟨by simp [hid2],
        (by omega : iter + 1 + 1 ≤ iter + 3),
        passForest_noNested ro uo _⟩
  · have hc1' : (passForest ro uo f).2.changed = false := by simpa using hc1
    have hz := passDelta_changed_false hc1'
    have hid := passForest_of_delta_zero ro uo f hz
    simp only [normLoop, hc1', Bool.false_eq_true, if_false]
    refine ⟨by simp [hid], (by omega : iter + 1 ≤ iter + 3), ?_⟩
    have := passForest_noNested ro uo f
    rw [hid] at this
    simpa [hid] using this

/-- Summary of `normalize_paragraphs`: its result is a fixed point of the
pass (one further pass returns it unchanged with zero deltas), the loop
runs fewer than 50 iterations, and the result has no nested paragraphs. -/
theorem normalizeParagraphs_spec (ro uo : Bool) (f : List Node) :
    passForest ro uo (normalizeParagraphs ro uo f).1 =
        ((normalizeParagraphs ro uo f).1, PassDelta.zero) ∧
      (normalizeParagraphs ro uo f).2.iterations < 50 ∧
      noNestedPB (normalizeParagraphs ro uo f).1 = true := by
  have h := normLoop_three ro uo 47 (extractForest f).1 0 PassDelta.zero
  refine ⟨h.1, ?_, h.2.2⟩
  have h2 :
      (normLoop ro uo 50 (extractForest f).1 0 PassDelta.zero).2.2 ≤ 0 + 3 :=
    h.2.1
  simp only [normalizeParagraphs]
  omega

theorem splitAtFirstClose_sublist {ns mid after : List Node}
    (h : splitAtFirstClose ns = some (mid, after)) : after.Sublist ns := by
  induction ns generalizing mid after with
  | nil => simp [splitAtFirstClose] at h
  | cons n ns ih =>
      simp only [splitAtFirstClose] at h
      by_cases hc : isCloseMarkerNode n = true
      · rw [if_pos hc] at h
        have h2 : ns = after := congrArg Prod.snd (Option.some.inj h)
        rw [← h2]
        exact List.sublist_cons_self n ns
      · rw [if_neg hc] at h
        rcases hsp : splitAtFirstClose ns with - | ⟨mid', after'⟩
        · rw [hsp] at h
          exact absurd h (by simp)
        · rw [hsp] at h
          have h2 : after' = after := congrArg Prod.snd (Option.some.inj h)
          rw [← h2]
          exact (ih hsp).trans (List.sublist_cons_self n ns)

/-- The sweep only deletes whole top-level regions: its output is a
subsequence of its input (for any fuel), so every surviving node — in
particular every marker comment outside the removed regions — is kept
byte-identical, in order, with nothing duplicated. -/
theorem removeEmptyGutenbergBlocksGo_sublist (fuel : Nat) (l : List Node) :
    ((removeEmptyGutenbergBlocksGo fuel l).1).Sublist l := by
  induction fuel generalizing l with
  | zero => simp [removeEmptyGutenbergBlocksGo]
  | succ fuel ih =>
      cases l with
      | nil => simp [removeEmptyGutenbergBlocksGo]
      | cons n rest =>
          simp only [removeEmptyGutenbergBlocksGo]
          by_cases ho : isOpenMarkerNode n = true
          · rw [if_pos ho]
            split
            next mid after hsp =>
              by_cases hvis : mid.any nodeHasVisibleContent = true
              · rw [if_pos hvis]
                exact List.Sublist.cons₂ n (ih rest)
              · rw [if_neg hvis]
                exact List.Sublist.cons n
                  ((ih after).trans (splitAtFirstClose_sublist hsp))
            next hsp =>
              exact List.Sublist.cons₂ n (ih rest)
          · rw [if_neg ho]
            exact List.Sublist.cons₂ n (ih rest)

theorem noNestedPB_sublist {a b : List Node} (h : a.Sublist b)
    (hb : noNestedPB b = true) : noNestedPB a = true := by
  induction h with
  | slnil => simp [noNestedPB]
  | cons n h ih =>
      simp only [noNestedPB, Bool.and_eq_true] at hb
      exact ih hb.2
  | cons₂ n h ih =>
      simp only [noNestedPB, Bool.and_eq_true] at hb ⊢
      exact ⟨hb.1, ih hb.2⟩

theorem foldl_cons_reverse (l acc : List Node) :
    l.foldl (fun acc c => c :: acc) acc = l.reverse ++ acc := by
  induction l generalizing acc with
  | nil => simp
  | cons n ns ih => simp [List.foldl_cons, ih]

/-- Skipping the marker children while extracting is the same as extracting
the filtered child list. -/
theorem extractKept_eq (cs : List Node) :
    extractKept cs =
      extractForest (cs.filter fun c => !isWpMarkerNode c) := by
  induction cs with
  | nil => simp [extractKept, extractForest]
  | cons n ns ih =>
      by_cases hm : isWpMarkerNode n = true
      · simp [extractKept, List.filter_cons, hm, ih]
      · simp [extractKept, extractForest, List.filter_cons, hm, ih]

/-! ## Claims -/

/-- Claim C1 (confirmed): for every input forest and every option setting, the
tree that `fix_html_content` serializes — the result of
`normalize_paragraphs` followed by `remove_empty_gutenberg_blocks` —
contains no `p` element that has a `p` element as a descendant. -/
theorem C1_no_nested_paragraph_in_output (ro uo : Bool) (f : List Node) :
    noNestedPB
      (removeEmptyGutenbergBlocks (normalizeParagraphs ro uo f).1).1 =
      true :=
  noNestedPB_sublist (removeEmptyGutenbergBlocksGo_sublist _ _)
    (normalizeParagraphs_spec ro uo f).2.2

/-- Claim C8 (confirmed): the fixed-point loop of the normalizer terminates on
every input within the 50-iteration safety cap, and for every (finite)
input forest the iteration count it returns is < 50 (in fact the loop
always reaches a fixed point within three passes). -/
theorem C8_iterations_lt_50 (ro uo : Bool) (f : List Node) :
    (normalizeParagraphs ro uo f).2.iterations < 50 :=
  (normalizeParagraphs_spec ro uo f).2.1

/-- Claim C2 (amended): the tree-level normalization stops only at a fixed
point — one further pass over the tree returned by `normalize_paragraphs`
returns that tree unchanged with all per-pass counters zero.  (The original
text-level idempotence claim about `fix_html_content` is false; see the
counterexample.) -/
theorem C2_amended_normalize_fixed_point (ro uo : Bool) (f : List Node) :
    passForest ro uo (normalizeParagraphs ro uo f).1 =
      ((normalizeParagraphs ro uo f).1, PassDelta.zero) :=
  (normalizeParagraphs_spec ro uo f).1

/-- Input of the idempotence counterexample: non-blank leading text (so the
parser is in body insertion mode and all following nodes are body
children), then three close `wp:paragraph` markers, then three open
`wp:paragraph` markers. -/
def idemInput : String :=
  "Hello world<!-- /wp:paragraph --><!-- /wp:paragraph --><!-- /wp:paragraph --><!-- wp:paragraph --><!-- wp:paragraph --><!-- wp:paragraph -->"

/-- First-run output of `fix_html_content` on `idemInput`: the two
sequential pair-deletion regexes each delete one close marker together
with one open marker, leaving the text followed by one close marker and
one open marker. -/
def idemOut1 : String :=
  "Hello world\n<!--/wp:paragraph-->\n\n<!--wp:paragraph-->"

set_option maxRecDepth 100000 in
/-- Claim C2 (counterexample): `fix_html_content` is not idempotent.  On
text followed by six adjacent markers — all body children thanks to the
non-blank leading text — the first run outputs a leftover close–open pair
(with `final_cleanup_comment_pairs = 2`); running `fix_html_content` on
that output deletes the pair, returning the bare text ≠ the first output,
and the second run reports the non-zero counter
`final_cleanup_comment_pairs = 1`.  Both parses are fixed by `parseCT`
(the spec-modelled parser on text-leading comment/text input, on which all
conforming parsers agree). -/
theorem C2_counterexample_not_idempotent :
    parseCT idemInput =
        [Node.text "Hello world",
         Node.comment " /wp:paragraph ", Node.comment " /wp:paragraph ",
         Node.comment " /wp:paragraph ", Node.comment " wp:paragraph ",
         Node.comment " wp:paragraph ", Node.comment " wp:paragraph "] ∧
      fixHtmlContent idemInput defaultOpts (.ok ⟨true, parseCT idemInput⟩) =
        (idemOut1, .ok ⟨0, 0, 0, 0, 0, 1⟩ 0 none (some 2), "html5lib") ∧
      parseCT idemOut1 =
        [Node.text "Hello world\n", Node.comment "/wp:paragraph",
         Node.text "\n\n", Node.comment "wp:paragraph"] ∧
      fixHtmlContent idemOut1 defaultOpts (.ok ⟨true, parseCT idemOut1⟩) =
        ("Hello world\n\n", .ok ⟨0, 0, 0, 0, 0, 1⟩ 0 none (some 1),
          "html5lib") ∧
      ("Hello world\n\n" : String) ≠ idemOut1 :=
  ⟨rfl, rfl, rfl, rfl, by decide⟩

/-- Claim C3 (confirmed): when the out-of-scope parse of a non-trivial input
fails, `fix_html_content` catches the exception and returns the original
input text unchanged together with an error indicator in the stats mapping
— never truncated or garbled output.  (All tree stages of the embedding are
total functions; the parser is the only failing stage, per §2 of the
spec.) -/
theorem C3_parse_failure_returns_input (html : String) (o : FixOpts)
    (e : String) (h1 : pyBlank html = false) (h2 : 10 ≤ html.length) :
    fixHtmlContent html o (.error e) =
      (html, .error ("Processing failed: " ++ e), pickParser) := by
  have hne : html.data.isEmpty = false := by
    cases hd : html.data with
    | nil =>
        exfalso
        have hb : pyBlank html = true := by simp [pyBlank, hd]
        simp [hb] at h1
    | cons c l => rfl
  simp only [fixHtmlContent, hne, h1, Bool.or_self, Bool.false_eq_true,
    if_false]
  rw [if_neg (by omega : ¬html.length < 10)]

/-- Witness for C3 at a concrete input. -/
theorem C3_parse_failure_returns_input_witness :
    pyBlank "<p>hello</p>" = false ∧
      10 ≤ ("<p>hello</p>" : String).length ∧
      fixHtmlContent "<p>hello</p>" defaultOpts (.error "boom") =
        ("<p>hello</p>", .error "Processing failed: boom", pickParser) :=
  ⟨by decide, by decide,
    C3_parse_failure_returns_input "<p>hello</p>" defaultOpts "boom"
      (by decide) (by decide)⟩

/-- The marker-loss counterexample input: two adjacent `wp:paragraph`
markers (close, then open) between two non-empty text runs. -/
def markerLossInput : String :=
  "Hello world<!-- /wp:paragraph --><!-- wp:paragraph -->Goodbye"

/-- Parse of `markerLossInput`. -/
def markerLossForest : List Node :=
  [Node.text "Hello world", Node.comment " /wp:paragraph ",
   Node.comment " wp:paragraph ", Node.text "Goodbye"]

set_option maxRecDepth 100000 in
/-- Claim C4 (counterexample): with markers never stripped at tree level, two
marker comments that lie outside any removed region (the sweep removes
nothing here) are nevertheless lost: the final text cleanup deletes the
adjacent close–open `wp:paragraph` pair, so the output contains no marker
at all. -/
theorem C4_counterexample_markers_lost :
    parseCT markerLossInput = markerLossForest ∧
      (markerLossForest.filter isWpMarkerNode).length = 2 ∧
      (removeEmptyGutenbergBlocks
          (normalizeParagraphs true true markerLossForest).1).2 = 0 ∧
      fixHtmlContent markerLossInput defaultOpts
          (.ok ⟨true, markerLossForest⟩) =
        ("Hello world\n\nGoodbye",
         .ok ⟨0, 0, 0, 0, 0, 1⟩ 0 none (some 1), "html5lib") ∧
      countSubstr "<!--" "Hello world\n\nGoodbye" = 0 :=
  ⟨rfl, rfl, rfl, rfl, rfl⟩

/-- Claim C4 (amended): at tree level the sweep deletes markers only as part
of removing a whole empty region: its output is a subsequence of its input,
so every marker outside the removed regions survives the tree stages
byte-identical, in order, none duplicated.  (Loss is still possible later
at text level — the final cleanup deletes adjacent close–open
`wp:paragraph` pairs — and markers extracted from one paragraph are emitted
in reversed order, per the counterexamples of C4 and C6.) -/
theorem C4_amended_sweep_is_subsequence (l : List Node) :
    ((removeEmptyGutenbergBlocks l).1).Sublist l :=
  removeEmptyGutenbergBlocksGo_sublist (l.length + 1) l

/-- Claim C5 (counterexample): on `<p><div></div></p>` with both options
enabled, the comment-wrapper rule does not match and the paragraph is
effectively empty, so under the claimed order (comment-only, then empty
removal, then block unwrap, first match only) the element would be removed
with `empty_p_removed = 1`; the code instead block-unwraps it, keeping the
`div` with `block_wraps_unwrapped = 1` and `empty_p_removed = 0`. -/
theorem C5_counterexample_rule_order :
    pIsWpCommentWrapper [Node.elem "div" []] = false ∧
      isEffectivelyEmpty [Node.elem "div" []] = true ∧
      processP true true [Node.elem "div" []] =
        ([Node.elem "div" []], ⟨0, 0, 1, 0⟩) ∧
      processPSpecOrder true true [Node.elem "div" []] =
        ([], ⟨0, 1, 0, 0⟩) ∧
      processP true true [Node.elem "div" []] ≠
        processPSpecOrder true true [Node.elem "div" []] :=
  ⟨rfl, rfl, rfl, rfl,
    fun h => absurd (congrArg (fun r => r.2.block) h) (by decide)⟩

/-- Claim C5 (amended): for each snapshotted `p`, the rules are tried in the
order comment-only removal (which stops processing of that element in that
pass), then the unconditional nested-paragraph unwrap (which does not
stop), then block-unwrap on the updated children (which stops), then
empty-paragraph removal on the updated children. -/
theorem C5_amended_rule_order (ro uo : Bool) (cs : List Node) :
    processP ro uo cs = processPOrdered ro uo cs := by
  by_cases h1 : pIsWpCommentWrapper cs = true
  · simp [processP, processPOrdered, h1]
  · by_cases h2 : (uo && hasBlockChild (unwrapPs cs).1) = true
    · simp [processP, processPOrdered, h1, h2, PassDelta.add]
    · by_cases h3 : (ro && isEffectivelyEmpty (unwrapPs cs).1) = true
      · simp [processP, processPOrdered, h1, h2, h3, PassDelta.add]
      · simp [processP, processPOrdered, h1, h2, h3, PassDelta.add]

/-- Claim C6 (counterexample): a paragraph containing the markers
`wp:a` then `/wp:a` has them extracted to the positions after the `p` in
the order `/wp:a`, `wp:a` — the reverse of their original relative order,
contradicting the claimed order preservation. -/
theorem C6_counterexample_extraction_reversed :
    extractForest [Node.elem "p" [Node.text "X", Node.comment " wp:a ",
        Node.comment " /wp:a "]] =
      ([Node.elem "p" [Node.text "X"], Node.comment " /wp:a ",
        Node.comment " wp:a "], 2) ∧
      [Node.comment " /wp:a ", Node.comment " wp:a "].map payloadStr ≠
        [Node.comment " wp:a ", Node.comment " /wp:a "].map payloadStr :=
  ⟨rfl, by decide⟩

/-- Claim C6 (amended): every marker comment that is a direct child of a `p`
is moved to become an immediately following sibling of the `p`, but the
moved markers end up after the `p` in reverse of their original relative
order; the extraction count equals the number of markers moved; and if at
least one marker was moved and the `p` is then effectively empty, the `p`
is removed (otherwise it is kept, with extraction recursing into its
remaining children). -/
theorem C6_amended_extraction (cs : List Node) :
    extractForest [Node.elem "p" cs] =
      (if (cs.filter isWpMarkerNode).length != 0 &&
          isEffectivelyEmpty (cs.filter fun c => !isWpMarkerNode c) then
        ((cs.filter isWpMarkerNode).reverse,
         (cs.filter isWpMarkerNode).length)
      else
        (Node.elem "p"
            (extractForest (cs.filter fun c => !isWpMarkerNode c)).1 ::
            (cs.filter isWpMarkerNode).reverse,
          (cs.filter isWpMarkerNode).length +
            (extractForest (cs.filter fun c => !isWpMarkerNode c)).2)) := by
  by_cases hc : ((cs.filter isWpMarkerNode).length != 0 &&
      isEffectivelyEmpty (cs.filter fun c => !isWpMarkerNode c)) = true
  · simp [extractForest, extractNode, commentsToMove, foldl_cons_reverse,
      extractKept_eq, hc]
  · simp [extractForest, extractNode, commentsToMove, foldl_cons_reverse,
      extractKept_eq, hc]

/-- Claim C7 (code-bug evaluation): in the paired-region strip, an
intervening non-blank comment is counted as visible content (comments are
`NavigableString`s, so the dead `isinstance(node, Comment)` branch of
`_node_has_visible_content` is shadowed), and the region
`wp:group`, `<!-- note -->`, `/wp:group` is kept with zero removals —
although a comment renders nothing, so under the visibility notion of the claim
the region is empty and would be deleted as one unit (as it indeed is when
the comment is replaced by blank text). -/
theorem C7_comment_counts_as_visible :
    nodeHasVisibleContent (Node.comment " note ") = true ∧
      removeEmptyGutenbergBlocks
          [Node.comment " wp:group ", Node.comment " note ",
           Node.comment " /wp:group "] =
        ([Node.comment " wp:group ", Node.comment " note ",
          Node.comment " /wp:group "], 0) ∧
      removeEmptyGutenbergBlocks
          [Node.comment " wp:group ", Node.text "   ",
           Node.comment " /wp:group "] =
        ([], 1) :=
  ⟨rfl, rfl, rfl⟩

/-- Claim C9 (counterexample): the 8-character input `<p></p>2` is returned
unchanged with a warning and the normalization pipeline is skipped (had it
run, the empty paragraph would have been removed, producing `"2"`); the
empty input is reported at error level, not warning level. -/
theorem C9_counterexample_short_input_skips_pipeline :
    fixHtmlContent "<p></p>2" defaultOpts
        (.ok ⟨true, [Node.elem "p" [], Node.text "2"]⟩) =
      ("<p></p>2", .warning "HTML seems too short - might be incomplete",
        "html5lib") ∧
      (fixPipeline defaultOpts ⟨true, [Node.elem "p" [], Node.text "2"]⟩).1 =
        "2" ∧
      fixHtmlContent "" defaultOpts (.ok ⟨true, []⟩) =
        ("", .error "Empty HTML provided", "html5lib") :=
  ⟨rfl, rfl, rfl⟩

/-- Claim C9 (amended): empty (or all-whitespace) input yields an error-level
result and non-empty input shorter than 10 characters yields a
warning-level result; in both cases the input text is returned unchanged
and the normalization pipeline is skipped entirely (the result does not
depend on the parse). -/
theorem C9_amended_trivial_input_guards (html : String) (o : FixOpts)
    (pr : Except String Parsed) :
    (pyBlank html = true →
      fixHtmlContent html o pr =
        (html, .error "Empty HTML provided", pickParser)) ∧
    (pyBlank html = false → html.length < 10 →
      fixHtmlContent html o pr =
        (html, .warning "HTML seems too short - might be incomplete",
          pickParser)) := by
  constructor
  · intro h
    simp [fixHtmlContent, h]
  · intro h1 h2
    have hne : html.data.isEmpty = false := by
      cases hd : html.data with
      | nil =>
          exfalso
          have hb : pyBlank html = true := by simp [pyBlank, hd]
          simp [hb] at h1
      | cons c l => rfl
    simp [fixHtmlContent, hne, h1, h2]

/-- Witness for the amended C9 at concrete inputs. -/
theorem C9_amended_trivial_input_guards_witness :
    fixHtmlContent "<p></p>2" defaultOpts (.error "x") =
      ("<p></p>2", .warning "HTML seems too short - might be incomplete",
        pickParser) :=
  (C9_amended_trivial_input_guards "<p></p>2" defaultOpts (.error "x")).2
    (by decide) (by decide)

/-- The adversarial comment payload for C10: a triple-nested arrangement of
the target pattern of the cleanup. -/
def spanBugPayload : String :=
  "<p><span></span><p><span></span><p><span></span></p></p></p>"

/-- The C10 failing input: non-blank leading text (so the comment is a body
child under a conforming parser), then `spanBugPayload` wrapped in comment
delimiters. -/
def spanBugInput : String := "Check this<!--" ++ spanBugPayload ++ "-->"

set_option maxRecDepth 100000 in
/-- Claim C10 (code-bug evaluation): on `spanBugInput` — non-blank text then
a comment whose payload survives every tree stage as a body child — the
two span-cleanup regexes delete the two inner occurrences, but their
deletions concatenate a new occurrence that the remaining left-to-right
scan never revisits: the final output of `fix_html_content` still contains
the literal `<p><span></span></p>`, contradicting the claim (and the
stated "remove all" cleanup intent of the code); the same output results
with `removeEmpty` disabled.  The parse is fixed by `parseCT` (the
spec-modelled parser on text-leading comment/text input, on which all
conforming parsers agree). -/
theorem C10_cleanup_leaves_pattern :
    parseCT spanBugInput =
        [Node.text "Check this", Node.comment spanBugPayload] ∧
      (fixHtmlContent spanBugInput defaultOpts
          (.ok ⟨true, parseCT spanBugInput⟩)).1 =
        "Check this\n<!-- <p><span></span></p> -->" ∧
      (fixHtmlContent spanBugInput ⟨false, true, false, true⟩
          (.ok ⟨true, parseCT spanBugInput⟩)).1 =
        "Check this\n<!-- <p><span></span></p> -->" ∧
      containsSubstr "<p><span></span></p>"
          "Check this\n<!-- <p><span></span></p> -->" = true :=
  ⟨rfl, rfl, rfl, rfl⟩
